import Mathlib

/-!
Verification of the `TikTokAnalyzer` analytics module
(`src/analysis/tiktokAnalyzer.js`).

Modelling conventions for the shallow embedding:

* JavaScript numbers are modelled as exact rationals (`ℚ`).  The IEEE-754
  non-finite values that arise from `Math.log10(0)` are tracked separately by
  the `JsFloat` type.
* `Math.log10` is an external library function over doubles; its finite values
  are abstracted as an explicit parameter `log10 : ℚ → ℚ` threaded through the
  definitions that use it.  No theorem below depends on its values.
* A JavaScript object used as an accumulation table is modelled as an
  insertion-ordered association list (`List (κ × σ)`).  `Object.entries`
  enumerates string keys in insertion order, except that keys which are array
  indices (canonical numeric strings in `[0, 2^32 − 1)`) come first, in
  ascending numeric order; `jsIntKeyEntries` models this for the integer-keyed
  duration table.  The posting-time keys (`"${day}-${hour}"`, which contain a
  dash) and hashtag/music keys are modelled in insertion order.
* `new Date(video.createTime).getDay()` / `.getHours()` depend only on the
  timestamp and the fixed local calendar of the host; they are modelled as the
  `day` and `hour` fields of a video record.
* `Array.prototype.sort` with the comparator `(a, b) => f(b) - f(a)` is a
  stable sort, descending by `f`.  For a consistent comparator the stable
  descending permutation is unique, so `List.insertionSort` (which is stable)
  models it exactly.
* The `TypeError` thrown by `generateRecommendations` on an empty
  `bestPostingTimes` list is modelled by `Option`.
-/

namespace TikTok

/-- Per-video counters, the `video.stats` object of the source. -/
structure Stats where
  views : ℚ
  likes : ℚ
  comments : ℚ
  shares : ℚ
deriving DecidableEq

/-- A video record as consumed by the analyzer.  `day` and `hour` model
`new Date(video.createTime).getDay()` and `.getHours()` under the fixed local
calendar of the host. -/
structure Video where
  id : ℕ
  stats : Stats
  duration : ℚ
  day : ℕ
  hour : ℕ
  hashtags : List String
  music : String
deriving DecidableEq

/-- Engagement rate (source lines 12–16):
`views > 0 ? (likes + comments + shares) / views : 0`. -/
def calculateEngagementRate (video : Video) : ℚ :=
  if 0 < video.stats.views then
    (video.stats.likes + video.stats.comments + video.stats.shares) / video.stats.views
  else 0

/-- Property lookup in an insertion-ordered association list, the model of
reading `m[k]` on a JavaScript object used as a dictionary. -/
def lookupAList {κ σ : Type} [DecidableEq κ] (k : κ) : List (κ × σ) → Option σ
  | [] => none
  | (k', s) :: m => if k' = k then some s else lookupAList k m

/-- Model of the JavaScript idiom `if (!m[k]) m[k] = init; <mutate m[k] by f>`:
an existing entry is updated in place, a missing key is appended at the end
with value `f init`. -/
def updateAList {κ σ : Type} [DecidableEq κ] (m : List (κ × σ)) (k : κ) (init : σ)
    (f : σ → σ) : List (κ × σ) :=
  match m with
  | [] => [(k, f init)]
  | (k', s) :: m => if k' = k then (k', f s) :: m else (k', s) :: updateAList m k init f

/-- One bucket of the `durationGroups` table (source lines 24–30). -/
structure DurationGroup where
  count : ℕ
  totalEngagement : ℚ
  videos : List Video
deriving DecidableEq

/-- The mutation applied to a duration bucket for one video (source lines 32–34). -/
def durationBump (video : Video) (g : DurationGroup) : DurationGroup :=
  ⟨g.count + 1, g.totalEngagement + calculateEngagementRate video, g.videos ++ [video]⟩

/-- The `durationGroups` accumulation table of `analyzeDuration`
(source lines 21–35), keyed by `Math.floor(video.duration)`. -/
def durationGroups (videos : List Video) : List (ℤ × DurationGroup) :=
  videos.foldl
    (fun m video => updateAList m ⌊video.duration⌋ ⟨0, 0, []⟩ (durationBump video)) []

/-- Whether an integer key prints as an ECMAScript array index
(a canonical numeric string in `[0, 2^32 − 1)`). -/
def isArrayIndexKey (k : ℤ) : Bool :=
  decide (0 ≤ k) && decide (k < 2 ^ 32 - 1)

/-- The order in which `Object.entries` enumerates an object whose keys are
integers: array-index keys in ascending numeric order first, then the remaining
keys in insertion order (ECMAScript `OrdinaryOwnPropertyKeys`). -/
def jsIntKeyEntries {σ : Type} (m : List (ℤ × σ)) : List (ℤ × σ) :=
  List.insertionSort (fun p q => p.1 ≤ q.1) (m.filter (fun p => isArrayIndexKey p.1))
    ++ m.filter (fun p => ! isArrayIndexKey p.1)

/-- The `bestDuration` record of `analyzeDuration` (source lines 38–41).  The
placeholder `{duration: 0, avgEngagement: 0}` has no `sampleSize` property,
modelled by `none`. -/
structure BestDuration where
  duration : ℤ
  avgEngagement : ℚ
  sampleSize : Option ℕ
deriving DecidableEq

/-- The `Object.entries(durationGroups).forEach` scan of `analyzeDuration`
(source lines 43–52): replace the best record whenever a bucket's average
engagement strictly exceeds the current best. -/
def durationFold (l : List (ℤ × DurationGroup)) (b : BestDuration) : BestDuration :=
  l.foldl
    (fun bestDuration p =>
      let avgEngagement := p.2.totalEngagement / (p.2.count : ℚ)
      if bestDuration.avgEngagement < avgEngagement then
        ⟨p.1, avgEngagement, some p.2.count⟩
      else bestDuration)
    b

/-- `analyzeDuration` (source lines 19–55). -/
def analyzeDuration (videos : List Video) : BestDuration :=
  durationFold (jsIntKeyEntries (durationGroups videos)) ⟨0, 0, none⟩

/-- The local `avgEngagement` computed for one duration bucket (source line 44). -/
def entryAvg (p : ℤ × DurationGroup) : ℚ :=
  p.2.totalEngagement / (p.2.count : ℚ)

/-- The record built when a duration bucket becomes the best so far
(source lines 46–50). -/
def entryBest (p : ℤ × DurationGroup) : BestDuration :=
  ⟨p.1, entryAvg p, some p.2.count⟩

/-- One bucket of the `timeSlots` table (source lines 68–75). -/
structure TimeSlot where
  count : ℕ
  totalEngagement : ℚ
  day : ℕ
  hour : ℕ
deriving DecidableEq

/-- The mutation applied to a time-slot bucket for one video (source lines 77–79). -/
def slotBump (video : Video) (s : TimeSlot) : TimeSlot :=
  ⟨s.count + 1, s.totalEngagement + calculateEngagementRate video, s.day, s.hour⟩

/-- The `timeSlots` accumulation table of `analyzePostingTimes`
(source lines 59–80), keyed by the template string `"${dayOfWeek}-${hour}"`,
modelled as the pair `(day, hour)`.  Such keys contain a dash, hence are not
array indices, so `Object.entries` enumerates them in insertion order. -/
def timeSlots (videos : List Video) : List ((ℕ × ℕ) × TimeSlot) :=
  videos.foldl
    (fun m video =>
      updateAList m (video.day, video.hour) ⟨0, 0, video.day, video.hour⟩ (slotBump video))
    []

/-- A ranked posting-time entry: a time slot together with its average
engagement (the spread `{...data, avgEngagement}` of source lines 84–87). -/
structure RankedTimeSlot where
  count : ℕ
  totalEngagement : ℚ
  day : ℕ
  hour : ℕ
  avgEngagement : ℚ
deriving DecidableEq

/-- JavaScript `Array.prototype.sort` with the comparator
`(a, b) => f(b) - f(a)`: the stable sort descending by `f`. -/
def sortByDesc {α : Type} (f : α → ℚ) (l : List α) : List α :=
  List.insertionSort (fun a b => f b ≤ f a) l

/-- The mapped, not yet sorted, posting-time entries in first-encounter order
(source lines 84–87). -/
def slotRankings (videos : List Video) : List RankedTimeSlot :=
  (timeSlots videos).map
    (fun p => ⟨p.2.count, p.2.totalEngagement, p.2.day, p.2.hour,
               p.2.totalEngagement / (p.2.count : ℚ)⟩)

/-- The sorted posting-time list before truncation (source line 88). -/
def rankedTimeSlots (videos : List Video) : List RankedTimeSlot :=
  sortByDesc (fun s => s.avgEngagement) (slotRankings videos)

/-- `analyzePostingTimes` (source lines 58–90): the sorted slots, truncated by
`slice(0, 5)`. -/
def analyzePostingTimes (videos : List Video) : List RankedTimeSlot :=
  (rankedTimeSlots videos).take 5

/-- One bucket of the `hashtagStats` / `musicStats` tables
(source lines 101–106 and 131–136). -/
structure TagStat where
  count : ℕ
  totalEngagement : ℚ
  totalViews : ℚ
  videos : List ℕ
deriving DecidableEq

/-- The mutation applied to a hashtag or music bucket for one video
(source lines 109–112 and 139–142). -/
def tagBump (video : Video) (s : TagStat) : TagStat :=
  ⟨s.count + 1, s.totalEngagement + calculateEngagementRate video,
   s.totalViews + video.stats.views, s.videos ++ [video.id]⟩

/-- The `hashtagStats` accumulation table (source lines 96–113): for each
video, for each occurrence of a tag in its tag list, bump that tag's bucket. -/
def hashtagStats (videos : List Video) : List (String × TagStat) :=
  videos.foldl
    (fun m video =>
      video.hashtags.foldl (fun m tag => updateAList m tag ⟨0, 0, 0, []⟩ (tagBump video)) m)
    []

/-- An output entry of `analyzeHashtags` (source lines 117–123). -/
structure HashtagEntry where
  tag : String
  avgEngagement : ℚ
  totalViews : ℚ
  useCount : ℕ
  performanceScore : ℚ
deriving DecidableEq

/-- `analyzeHashtags` (source lines 95–124).  `Math.log10` is abstracted by the
parameter `log10` (its non-finite behaviour at 0 is tracked by `JsFloat`
below). -/
def analyzeHashtags (log10 : ℚ → ℚ) (videos : List Video) : List HashtagEntry :=
  sortByDesc (fun e => e.performanceScore)
    ((hashtagStats videos).map
      (fun p =>
        ⟨p.1, p.2.totalEngagement / (p.2.count : ℚ), p.2.totalViews, p.2.count,
         p.2.totalEngagement / (p.2.count : ℚ) * log10 p.2.totalViews⟩))

/-- The `musicStats` accumulation table (source lines 128–144): one bucket per
distinct `music` value, one contribution per video. -/
def musicStats (videos : List Video) : List (String × TagStat) :=
  videos.foldl
    (fun m video => updateAList m video.music ⟨0, 0, 0, []⟩ (tagBump video)) []

/-- An output entry of `analyzeMusic` (source lines 146–153). -/
structure MusicEntry where
  music : String
  avgEngagement : ℚ
  totalViews : ℚ
  useCount : ℕ
  performanceScore : ℚ
deriving DecidableEq

/-- `analyzeMusic` (source lines 127–157). -/
def analyzeMusic (log10 : ℚ → ℚ) (videos : List Video) : List MusicEntry :=
  sortByDesc (fun e => e.performanceScore)
    ((musicStats videos).map
      (fun p =>
        ⟨p.1, p.2.totalEngagement / (p.2.count : ℚ), p.2.totalViews, p.2.count,
         p.2.totalEngagement / (p.2.count : ℚ) * log10 p.2.totalViews⟩))

/-- The `analysisResults` bundle assembled by `analyzeVideoBatch`
(source lines 192–197). -/
structure AnalysisResults where
  optimalDuration : BestDuration
  bestPostingTimes : List RankedTimeSlot
  topHashtags : List HashtagEntry
  topMusic : List MusicEntry
deriving DecidableEq

/-- The day-name table of `formatTimeRecommendation` (source line 186). -/
def dayNames : List String :=
  ["dimanche", "lundi", "mardi", "mercredi", "jeudi", "vendredi", "samedi"]

/-- `formatTimeRecommendation` (source lines 185–188).  An out-of-range day
reads JavaScript `undefined`, which a template literal renders as the string
"undefined". -/
def formatTimeRecommendation (timeSlot : RankedTimeSlot) : String :=
  dayNames.getD timeSlot.day "undefined" ++ " à " ++ toString timeSlot.hour ++ "h00"

/-- The `timing` branch of the recommendation bundle (source lines 163–166). -/
structure TimingRec where
  bestTimes : List RankedTimeSlot
  recommendation : String
deriving DecidableEq

/-- The `duration` branch of the recommendation bundle (source lines 167–170). -/
structure DurationRec where
  optimal : BestDuration
  recommendation : String
deriving DecidableEq

/-- The `hashtags` branch of the recommendation bundle (source lines 171–174). -/
structure HashtagsRec where
  recommended : List HashtagEntry
  recommendation : String
deriving DecidableEq

/-- The `music` branch of the recommendation bundle (source lines 175–178). -/
structure MusicRec where
  trending : List MusicEntry
  recommendation : String
deriving DecidableEq

/-- The full recommendation bundle (source lines 162–179). -/
structure Recommendations where
  timing : TimingRec
  duration : DurationRec
  hashtags : HashtagsRec
  music : MusicRec
deriving DecidableEq

/-- `generateRecommendations` (source lines 161–182).  When `bestPostingTimes`
is empty, `formatTimeRecommendation(bestPostingTimes[0])` reads `.day` of
`undefined` and throws a `TypeError`; the throw is modelled by `none`. -/
def generateRecommendations (analysisResults : AnalysisResults) : Option Recommendations :=
  match analysisResults.bestPostingTimes.head? with
  | none => none
  | some first =>
    some
      { timing :=
          ⟨analysisResults.bestPostingTimes.take 3,
           "Postez vos vidéos " ++ formatTimeRecommendation first⟩
        duration :=
          ⟨analysisResults.optimalDuration,
           "Visez une durée de " ++ toString analysisResults.optimalDuration.duration ++
             " secondes pour un engagement optimal"⟩
        hashtags :=
          ⟨analysisResults.topHashtags.take 5,
           "Utilisez une combinaison de ces hashtags performants"⟩
        music :=
          ⟨analysisResults.topMusic.take 3,
           "Ces musiques ont généré le plus d\x27engagement"⟩ }

/-- The value returned by `analyzeVideoBatch` (source lines 200–203). -/
structure BatchResult where
  analysisResults : AnalysisResults
  recommendations : Recommendations
deriving DecidableEq

/-- `analyzeVideoBatch` (source lines 191–205).  The `TypeError` thrown by
`generateRecommendations` propagates (rejecting the promise), modelled by
`none`. -/
def analyzeVideoBatch (log10 : ℚ → ℚ) (videos : List Video) : Option BatchResult :=
  let analysisResults : AnalysisResults :=
    ⟨analyzeDuration videos, analyzePostingTimes videos,
     analyzeHashtags log10 videos, analyzeMusic log10 videos⟩
  match generateRecommendations analysisResults with
  | none => none
  | some recommendations => some ⟨analysisResults, recommendations⟩

/-- The two runs of the claimed idempotence scenario: the batch analysis, run
twice on the same input. -/
def analyzeVideoBatchTwice (log10 : ℚ → ℚ) (videos : List Video) :
    Option BatchResult × Option BatchResult :=
  (analyzeVideoBatch log10 videos, analyzeVideoBatch log10 videos)

/-- IEEE-754 double values, as far as needed to track the sign cases of
`avgEngagement * Math.log10(totalViews)`: a finite value (idealized as an exact
rational), the two infinities, and NaN. -/
inductive JsFloat where
  | finite (q : ℚ)
  | posInf
  | negInf
  | nan
deriving DecidableEq

/-- IEEE-754 multiplication on the cases tracked by `JsFloat`: a nonzero finite
value times an infinity gives a signed infinity, zero times an infinity gives
NaN, and NaN propagates. -/
def jsMul : JsFloat → JsFloat → JsFloat
  | .nan, _ => .nan
  | _, .nan => .nan
  | .finite a, .finite b => .finite (a * b)
  | .finite a, .posInf => if a = 0 then .nan else if 0 < a then .posInf else .negInf
  | .finite a, .negInf => if a = 0 then .nan else if 0 < a then .negInf else .posInf
  | .posInf, .finite b => if b = 0 then .nan else if 0 < b then .posInf else .negInf
  | .negInf, .finite b => if b = 0 then .nan else if 0 < b then .negInf else .posInf
  | .posInf, .posInf => .posInf
  | .posInf, .negInf => .negInf
  | .negInf, .posInf => .negInf
  | .negInf, .negInf => .posInf

/-- `Math.log10` on a rational-modelled double: `log10(0) = -Infinity`, a
negative argument gives NaN, and a positive argument gives a finite value whose
magnitude is abstracted by the parameter `log10`. -/
def jsLog10 (log10 : ℚ → ℚ) (q : ℚ) : JsFloat :=
  if q = 0 then .negInf else if q < 0 then .nan else .finite (log10 q)

/-- Whether a `JsFloat` is a finite double. -/
def JsFloat.isFinite : JsFloat → Bool
  | .finite _ => true
  | _ => false

/-- The score expression of source lines 121 and 154,
`(stats.totalEngagement / stats.count) * Math.log10(stats.totalViews)`, with
the IEEE-754 non-finite values tracked. -/
def performanceScoreJs (log10 : ℚ → ℚ) (avgEngagement totalViews : ℚ) : JsFloat :=
  jsMul (.finite avgEngagement) (jsLog10 log10 totalViews)

/-- The contribution list of hashtag `t`: one entry per occurrence of `t` in a
video's tag list, in input order. -/
def tagContribs (t : String) (videos : List Video) : List Video :=
  videos.flatMap (fun v => (v.hashtags.filter (fun x => x = t)).map (fun _ => v))

/-- Number of occurrences of hashtag `t` over the whole input. -/
def tagUseCount (t : String) (videos : List Video) : ℕ :=
  (tagContribs t videos).length

/-- Summed engagement accumulated for hashtag `t` over the whole input. -/
def tagEngagementSum (t : String) (videos : List Video) : ℚ :=
  ((tagContribs t videos).map calculateEngagementRate).sum

/-- Summed views accumulated for hashtag `t` over the whole input. -/
def tagViewsSum (t : String) (videos : List Video) : ℚ :=
  ((tagContribs t videos).map (fun v => v.stats.views)).sum

/-- The contribution list of music identifier `m`: the videos using it, in
input order. -/
def musicContribs (m : String) (videos : List Video) : List Video :=
  videos.filter (fun v => v.music = m)

/-- The contribution list of a `(day, hour)` time slot: the videos posted in
it, in input order. -/
def slotContribs (k : ℕ × ℕ) (videos : List Video) : List Video :=
  videos.filter (fun v => (v.day, v.hour) = k)

/-- The contribution list of an integer duration key: the videos whose
truncated duration equals it, in input order. -/
def durContribs (d : ℤ) (videos : List Video) : List Video :=
  videos.filter (fun v => ⌊v.duration⌋ = d)

/-- The stream of `(tag, video)` update events generated by the nested
`forEach` loops of `analyzeHashtags` (source lines 99–112), flattened. -/
def hashtagEvents (videos : List Video) : List (String × Video) :=
  videos.flatMap (fun v => v.hashtags.map (fun t => (t, v)))

/-- A concrete three-video batch with durations 12.9, 12.1 and 13.0: the first
two land in duration bucket 12, the third in bucket 13. -/
def sampleDurationVideos : List Video :=
  [⟨1, ⟨100, 20, 0, 0⟩, 129 / 10, 1, 14, [], "x"⟩,
   ⟨2, ⟨100, 10, 0, 0⟩, 121 / 10, 1, 14, [], "x"⟩,
   ⟨3, ⟨100, 30, 0, 0⟩, 13, 1, 14, [], "x"⟩]

theorem lookupAList_updateAList_self {κ σ : Type} [DecidableEq κ]
    (m : List (κ × σ)) (k : κ) (init : σ) (f : σ → σ) :
    lookupAList k (updateAList m k init f) = some (f ((lookupAList k m).getD init)) := by
  induction m with
  | nil => simp [updateAList, lookupAList]
  | cons p m ih =>
    obtain ⟨k', s⟩ := p
    by_cases h : k' = k
    · subst h; simp [updateAList, lookupAList]
    · simp [updateAList, lookupAList, h, ih]

theorem lookupAList_updateAList_ne {κ σ : Type} [DecidableEq κ]
    (m : List (κ × σ)) {k k' : κ} (init : σ) (f : σ → σ) (h : k' ≠ k) :
    lookupAList k (updateAList m k' init f) = lookupAList k m := by
  induction m with
  | nil => simp [updateAList, lookupAList, h]
  | cons p m ih =>
    obtain ⟨k'', s⟩ := p
    by_cases h2 : k'' = k'
    · subst h2; simp [updateAList, lookupAList, h]
    · simp only [updateAList, if_neg h2, lookupAList]
      by_cases h3 : k'' = k
      · simp [h3]
      · simp [h3, ih]

theorem map_fst_updateAList {κ σ : Type} [DecidableEq κ]
    (m : List (κ × σ)) (k : κ) (init : σ) (f : σ → σ) :
    (updateAList m k init f).map Prod.fst =
      if k ∈ m.map Prod.fst then m.map Prod.fst else m.map Prod.fst ++ [k] := by
  induction m with
  | nil => simp [updateAList]
  | cons p m ih =>
    obtain ⟨k', s⟩ := p
    by_cases h : k' = k
    · subst h; simp [updateAList]
    · simp only [updateAList, if_neg h, List.map_cons, ih, List.mem_cons]
      by_cases h2 : k ∈ m.map Prod.fst
      · simp [h2, Ne.symm h]
      · simp [h2, Ne.symm h]

theorem nodup_keys_updateAList {κ σ : Type} [DecidableEq κ]
    (m : List (κ × σ)) (k : κ) (init : σ) (f : σ → σ)
    (h : (m.map Prod.fst).Nodup) :
    ((updateAList m k init f).map Prod.fst).Nodup := by
  rw [map_fst_updateAList]
  split
  · exact h
  · next hk => simp [List.nodup_append, h, hk]

theorem mem_keys_updateAList {κ σ : Type} [DecidableEq κ]
    (m : List (κ × σ)) (k k' : κ) (init : σ) (f : σ → σ) :
    k' ∈ (updateAList m k init f).map Prod.fst ↔ k' ∈ m.map Prod.fst ∨ k' = k := by
  rw [map_fst_updateAList]
  split
  · next hk =>
    constructor
    · exact Or.inl
    · rintro (h | rfl)
      · exact h
      · exact hk
  · simp [List.mem_append]

theorem lookupAList_eq_some_iff_mem {κ σ : Type} [DecidableEq κ]
    {m : List (κ × σ)} (hm : (m.map Prod.fst).Nodup) (k : κ) (s : σ) :
    lookupAList k m = some s ↔ (k, s) ∈ m := by
  induction m with
  | nil => simp [lookupAList]
  | cons p m ih =>
    obtain ⟨k', s'⟩ := p
    simp only [List.map_cons, List.nodup_cons] at hm
    by_cases h : k' = k
    · subst h
      rw [lookupAList, if_pos rfl]
      constructor
      · intro h'
        have hs : s' = s := by injection h'
        subst hs
        exact List.mem_cons_self _ _
      · intro h'
        rcases List.mem_cons.mp h' with h'' | hmem
        · rw [show s = s' from congrArg Prod.snd h'']
        · exact absurd (List.mem_map_of_mem Prod.fst hmem) hm.1
    · simp only [lookupAList, if_neg h, List.mem_cons, Prod.mk.injEq]
      rw [ih hm.2]
      constructor
      · exact Or.inr
      · rintro (⟨rfl, _⟩ | hmem)
        · exact absurd rfl h
        · exact hmem

theorem lookupAList_eq_none_iff {κ σ : Type} [DecidableEq κ]
    (m : List (κ × σ)) (k : κ) :
    lookupAList k m = none ↔ k ∉ m.map Prod.fst := by
  induction m with
  | nil => simp [lookupAList]
  | cons p m ih =>
    obtain ⟨k', s'⟩ := p
    by_cases h : k' = k
    · subst h; simp [lookupAList]
    · simp [lookupAList, h, ih, Ne.symm h]

theorem lookupAList_foldl_updateAList {κ σ π : Type} [DecidableEq κ]
    (key : π → κ) (init : π → σ) (step : π → σ → σ)
    (events : List π) (m : List (κ × σ)) (k : κ) :
    lookupAList k (events.foldl (fun m p => updateAList m (key p) (init p) (step p)) m) =
      (events.filter (fun p => key p = k)).foldl
        (fun o p => some (step p (o.getD (init p)))) (lookupAList k m) := by
  induction events generalizing m with
  | nil => rfl
  | cons p ps ih =>
    rw [List.foldl_cons, ih]
    by_cases h : key p = k
    · rw [List.filter_cons_of_pos (by simpa using h), List.foldl_cons]
      subst h
      rw [lookupAList_updateAList_self]
    · rw [List.filter_cons_of_neg (by simpa using h),
        lookupAList_updateAList_ne _ _ _ h]

theorem nodup_keys_foldl_updateAList {κ σ π : Type} [DecidableEq κ]
    (key : π → κ) (init : π → σ) (step : π → σ → σ)
    (events : List π) (m : List (κ × σ)) (hm : (m.map Prod.fst).Nodup) :
    (((events.foldl (fun m p => updateAList m (key p) (init p) (step p)) m)).map
        Prod.fst).Nodup := by
  induction events generalizing m with
  | nil => exact hm
  | cons p ps ih => exact ih _ (nodup_keys_updateAList _ _ _ _ hm)

theorem mem_keys_foldl_updateAList {κ σ π : Type} [DecidableEq κ]
    (key : π → κ) (init : π → σ) (step : π → σ → σ)
    (events : List π) (m : List (κ × σ)) (k : κ) :
    k ∈ (events.foldl (fun m p => updateAList m (key p) (init p) (step p)) m).map Prod.fst ↔
      k ∈ m.map Prod.fst ∨ k ∈ events.map key := by
  induction events generalizing m with
  | nil => simp
  | cons p ps ih =>
    rw [List.foldl_cons, ih, mem_keys_updateAList]
    simp only [List.map_cons, List.mem_cons]
    tauto

theorem foldl_some_of_some {σ π : Type} (init : π → σ) (step : π → σ → σ)
    (l : List π) (s : σ) :
    l.foldl (fun o p => some (step p (o.getD (init p)))) (some s) =
      some (l.foldl (fun s p => step p s) s) := by
  induction l generalizing s with
  | nil => rfl
  | cons p ps ih => simp [ih]

theorem hashtagStats_eq_foldl_events (videos : List Video) :
    hashtagStats videos =
      (hashtagEvents videos).foldl
        (fun m p => updateAList m p.1 ⟨0, 0, 0, []⟩ (tagBump p.2)) [] := by
  suffices h : ∀ (vs : List Video) (m : List (String × TagStat)),
      vs.foldl
          (fun m video =>
            video.hashtags.foldl
              (fun m tag => updateAList m tag ⟨0, 0, 0, []⟩ (tagBump video)) m)
          m =
        (hashtagEvents vs).foldl
          (fun m p => updateAList m p.1 ⟨0, 0, 0, []⟩ (tagBump p.2)) m by
    exact h videos []
  intro vs
  induction vs with
  | nil => intro m; rfl
  | cons v vs ih =>
    intro m
    rw [List.foldl_cons, ih]
    conv_rhs => rw [hashtagEvents, List.flatMap_cons, List.foldl_append, List.foldl_map]
    rfl

theorem filter_hashtagEvents (videos : List Video) (t : String) :
    (hashtagEvents videos).filter (fun p => p.1 = t) =
      (tagContribs t videos).map (fun v => (t, v)) := by
  show ((videos.flatMap fun v => v.hashtags.map fun tg => (tg, v)).filter
      fun p => p.1 = t) =
    (videos.flatMap fun v => (v.hashtags.filter fun x => x = t).map fun _ => v).map
      fun v => (t, v)
  induction videos with
  | nil => rfl
  | cons v vs ih =>
    rw [List.flatMap_cons, List.flatMap_cons, List.filter_append, List.map_append, ih]
    congr 1
    rw [List.filter_map, List.map_map]
    show (v.hashtags.filter fun x => x = t).map (fun tg => (tg, v)) =
      (v.hashtags.filter fun x => x = t).map fun _ => (t, v)
    apply List.map_congr_left
    intro a ha
    have ht : a = t := by simpa using (List.mem_filter.mp ha).2
    simp [ht]

theorem map_fst_hashtagEvents (videos : List Video) :
    (hashtagEvents videos).map Prod.fst = videos.flatMap Video.hashtags := by
  show (videos.flatMap fun v => v.hashtags.map fun tg => (tg, v)).map Prod.fst =
    videos.flatMap Video.hashtags
  induction videos with
  | nil => rfl
  | cons v vs ih =>
    rw [List.flatMap_cons, List.flatMap_cons, List.map_append, ih, List.map_map]
    congr 1
    exact List.map_id _

theorem tagBump_foldl (l : List Video) (s : TagStat) :
    l.foldl (fun s v => tagBump v s) s =
      ⟨s.count + l.length, s.totalEngagement + (l.map calculateEngagementRate).sum,
       s.totalViews + (l.map (fun v => v.stats.views)).sum, s.videos ++ l.map Video.id⟩ := by
  induction l generalizing s with
  | nil => simp
  | cons v l ih =>
    rw [List.foldl_cons, ih]
    simp only [tagBump, List.map_cons, List.sum_cons, List.length_cons, TagStat.mk.injEq]
    refine ⟨by omega, by ring, by ring, by simp⟩

theorem lookupAList_hashtagStats (videos : List Video) (t : String) :
    lookupAList t (hashtagStats videos) =
      if tagContribs t videos = [] then none
      else
        some ⟨tagUseCount t videos, tagEngagementSum t videos, tagViewsSum t videos,
              (tagContribs t videos).map Video.id⟩ := by
  have hgen := lookupAList_foldl_updateAList (fun p : String × Video => p.1)
    (fun _ => (⟨0, 0, 0, []⟩ : TagStat)) (fun p => tagBump p.2)
    (hashtagEvents videos) [] t
  rw [hashtagStats_eq_foldl_events]
  refine hgen.trans ?_
  rw [filter_hashtagEvents, List.foldl_map]
  simp only [tagUseCount, tagEngagementSum, tagViewsSum]
  show (tagContribs t videos).foldl
      (fun o v => some (tagBump v (o.getD ⟨0, 0, 0, []⟩))) none = _
  cases h : tagContribs t videos with
  | nil => rfl
  | cons v l =>
    rw [if_neg (by simp)]
    rw [List.foldl_cons,
      foldl_some_of_some (fun _ => (⟨0, 0, 0, []⟩ : TagStat)) (fun v s => tagBump v s),
      tagBump_foldl]
    simp [tagBump]
    omega

theorem nodup_keys_hashtagStats (videos : List Video) :
    ((hashtagStats videos).map Prod.fst).Nodup := by
  rw [hashtagStats_eq_foldl_events]
  exact nodup_keys_foldl_updateAList (fun p : String × Video => p.1)
    (fun _ => (⟨0, 0, 0, []⟩ : TagStat)) (fun p => tagBump p.2) _ _ List.nodup_nil

theorem mem_keys_hashtagStats (videos : List Video) (t : String) :
    t ∈ (hashtagStats videos).map Prod.fst ↔ t ∈ videos.flatMap Video.hashtags := by
  have hgen := mem_keys_foldl_updateAList (fun p : String × Video => p.1)
    (fun _ => (⟨0, 0, 0, []⟩ : TagStat)) (fun p => tagBump p.2)
    (hashtagEvents videos) [] t
  rw [hashtagStats_eq_foldl_events]
  refine hgen.trans ?_
  rw [show (hashtagEvents videos).map (fun p : String × Video => p.1) =
      (hashtagEvents videos).map Prod.fst from rfl, map_fst_hashtagEvents]
  simp

theorem lookupAList_musicStats (videos : List Video) (mu : String) :
    lookupAList mu (musicStats videos) =
      if musicContribs mu videos = [] then none
      else
        some ⟨(musicContribs mu videos).length,
              ((musicContribs mu videos).map calculateEngagementRate).sum,
              ((musicContribs mu videos).map (fun v => v.stats.views)).sum,
              (musicContribs mu videos).map Video.id⟩ := by
  have hgen := lookupAList_foldl_updateAList (fun v : Video => v.music)
    (fun _ => (⟨0, 0, 0, []⟩ : TagStat)) (fun v => tagBump v) videos [] mu
  refine hgen.trans ?_
  show (musicContribs mu videos).foldl
      (fun o v => some (tagBump v (o.getD ⟨0, 0, 0, []⟩))) none = _
  cases h : musicContribs mu videos with
  | nil => rfl
  | cons v l =>
    rw [if_neg (by simp), List.foldl_cons,
      foldl_some_of_some (fun _ => (⟨0, 0, 0, []⟩ : TagStat)) (fun v s => tagBump v s),
      tagBump_foldl]
    simp [tagBump]
    omega

theorem nodup_keys_musicStats (videos : List Video) :
    ((musicStats videos).map Prod.fst).Nodup :=
  nodup_keys_foldl_updateAList (fun v : Video => v.music)
    (fun _ => (⟨0, 0, 0, []⟩ : TagStat)) (fun v => tagBump v) videos [] List.nodup_nil

theorem mem_keys_musicStats (videos : List Video) (mu : String) :
    mu ∈ (musicStats videos).map Prod.fst ↔ mu ∈ videos.map Video.music := by
  have hgen := mem_keys_foldl_updateAList (fun v : Video => v.music)
    (fun _ => (⟨0, 0, 0, []⟩ : TagStat)) (fun v => tagBump v) videos [] mu
  refine hgen.trans ?_
  simp

theorem slotBump_foldl (l : List Video) (s : TimeSlot) :
    l.foldl (fun s v => slotBump v s) s =
      ⟨s.count + l.length, s.totalEngagement + (l.map calculateEngagementRate).sum,
       s.day, s.hour⟩ := by
  induction l generalizing s with
  | nil => simp
  | cons v l ih =>
    rw [List.foldl_cons, ih]
    simp only [slotBump, List.map_cons, List.sum_cons, List.length_cons, TimeSlot.mk.injEq]
    exact ⟨by omega, by ring, trivial, trivial⟩

theorem lookupAList_timeSlots (videos : List Video) (k : ℕ × ℕ) :
    lookupAList k (timeSlots videos) =
      if slotContribs k videos = [] then none
      else
        some ⟨(slotContribs k videos).length,
              ((slotContribs k videos).map calculateEngagementRate).sum, k.1, k.2⟩ := by
  have hgen := lookupAList_foldl_updateAList (fun v : Video => (v.day, v.hour))
    (fun v => (⟨0, 0, v.day, v.hour⟩ : TimeSlot)) (fun v => slotBump v) videos [] k
  refine hgen.trans ?_
  show (slotContribs k videos).foldl
      (fun o v => some (slotBump v (o.getD ⟨0, 0, v.day, v.hour⟩))) none = _
  cases h : slotContribs k videos with
  | nil => rfl
  | cons v l =>
    have hv : (v.day, v.hour) = k := by
      have hm : v ∈ slotContribs k videos := h ▸ List.mem_cons_self _ _
      simpa [slotContribs] using (List.mem_filter.mp hm).2
    rw [if_neg (by simp), List.foldl_cons,
      foldl_some_of_some (fun v : Video => (⟨0, 0, v.day, v.hour⟩ : TimeSlot))
        (fun v s => slotBump v s),
      slotBump_foldl]
    simp only [Option.getD_none, slotBump, TimeSlot.mk.injEq, List.map_cons,
      List.sum_cons, List.length_cons, Option.some_inj]
    refine ⟨by omega, by ring, ?_, ?_⟩
    · exact congrArg Prod.fst hv
    · exact congrArg Prod.snd hv

theorem nodup_keys_timeSlots (videos : List Video) :
    ((timeSlots videos).map Prod.fst).Nodup :=
  nodup_keys_foldl_updateAList (fun v : Video => (v.day, v.hour))
    (fun v => (⟨0, 0, v.day, v.hour⟩ : TimeSlot)) (fun v => slotBump v) videos []
    List.nodup_nil

theorem mem_keys_timeSlots (videos : List Video) (k : ℕ × ℕ) :
    k ∈ (timeSlots videos).map Prod.fst ↔
      k ∈ videos.map (fun v => (v.day, v.hour)) := by
  have hgen := mem_keys_foldl_updateAList (fun v : Video => (v.day, v.hour))
    (fun v => (⟨0, 0, v.day, v.hour⟩ : TimeSlot)) (fun v => slotBump v) videos [] k
  refine hgen.trans ?_
  simp

theorem durationBump_foldl (l : List Video) (g : DurationGroup) :
    l.foldl (fun g v => durationBump v g) g =
      ⟨g.count + l.length, g.totalEngagement + (l.map calculateEngagementRate).sum,
       g.videos ++ l⟩ := by
  induction l generalizing g with
  | nil => simp
  | cons v l ih =>
    rw [List.foldl_cons, ih]
    simp only [durationBump, List.map_cons, List.sum_cons, List.length_cons,
      DurationGroup.mk.injEq]
    exact ⟨by omega, by ring, by simp⟩

theorem lookupAList_durationGroups (videos : List Video) (d : ℤ) :
    lookupAList d (durationGroups videos) =
      if durContribs d videos = [] then none
      else
        some ⟨(durContribs d videos).length,
              ((durContribs d videos).map calculateEngagementRate).sum,
              durContribs d videos⟩ := by
  have hgen := lookupAList_foldl_updateAList (fun v : Video => ⌊v.duration⌋)
    (fun _ => (⟨0, 0, []⟩ : DurationGroup)) (fun v => durationBump v) videos [] d
  refine hgen.trans ?_
  show (durContribs d videos).foldl
      (fun o v => some (durationBump v (o.getD ⟨0, 0, []⟩))) none = _
  cases h : durContribs d videos with
  | nil => rfl
  | cons v l =>
    rw [if_neg (by simp), List.foldl_cons,
      foldl_some_of_some (fun _ => (⟨0, 0, []⟩ : DurationGroup))
        (fun v g => durationBump v g),
      durationBump_foldl]
    simp [durationBump]
    omega

theorem nodup_keys_durationGroups (videos : List Video) :
    ((durationGroups videos).map Prod.fst).Nodup :=
  nodup_keys_foldl_updateAList (fun v : Video => ⌊v.duration⌋)
    (fun _ => (⟨0, 0, []⟩ : DurationGroup)) (fun v => durationBump v) videos []
    List.nodup_nil

theorem mem_keys_durationGroups (videos : List Video) (d : ℤ) :
    d ∈ (durationGroups videos).map Prod.fst ↔
      d ∈ videos.map (fun v => ⌊v.duration⌋) := by
  have hgen := mem_keys_foldl_updateAList (fun v : Video => ⌊v.duration⌋)
    (fun _ => (⟨0, 0, []⟩ : DurationGroup)) (fun v => durationBump v) videos [] d
  refine hgen.trans ?_
  simp

theorem sortByDesc_perm {α : Type} (f : α → ℚ) (l : List α) :
    List.Perm (sortByDesc f l) l :=
  List.perm_insertionSort _ l

theorem sortByDesc_pairwise {α : Type} (f : α → ℚ) (l : List α) :
    (sortByDesc f l).Pairwise (fun a b => f b ≤ f a) := by
  haveI : IsTotal α (fun a b => f b ≤ f a) := ⟨fun a b => le_total (f b) (f a)⟩
  haveI : IsTrans α (fun a b => f b ≤ f a) := ⟨fun a b c h1 h2 => le_trans h2 h1⟩
  exact List.sorted_insertionSort _ l

theorem sortByDesc_filter_eq {α : Type} (f : α → ℚ) (q : ℚ) (l : List α) :
    (sortByDesc f l).filter (fun a => f a = q) = l.filter (fun a => f a = q) := by
  have hsub : List.Sublist (l.filter fun a => f a = q) (sortByDesc f l) := by
    show List.Sublist (l.filter fun a => f a = q) (List.insertionSort (fun a b => f b ≤ f a) l)
    apply List.sublist_insertionSort
    · apply List.pairwise_of_forall_mem_list
      intro a ha b hb
      have ha' : f a = q := by simpa using (List.mem_filter.mp ha).2
      have hb' : f b = q := by simpa using (List.mem_filter.mp hb).2
      rw [ha', hb']
    · exact List.filter_sublist l
  have hsub2 : List.Sublist (l.filter fun a => f a = q)
      ((sortByDesc f l).filter fun a => f a = q) := by
    have h2 := hsub.filter (fun a => decide (f a = q))
    simpa [List.filter_filter] using h2
  have hperm : List.Perm ((sortByDesc f l).filter fun a => f a = q)
      (l.filter fun a => f a = q) :=
    (sortByDesc_perm f l).filter _
  exact (hsub2.eq_of_length hperm.length_eq.symm).symm

theorem mem_jsIntKeyEntries {σ : Type} (m : List (ℤ × σ)) (p : ℤ × σ) :
    p ∈ jsIntKeyEntries m ↔ p ∈ m := by
  show p ∈ List.insertionSort (fun p q => p.1 ≤ q.1)
      (m.filter fun p => isArrayIndexKey p.1) ++
      (m.filter fun p => ! isArrayIndexKey p.1) ↔ p ∈ m
  rw [List.mem_append, List.mem_insertionSort, List.mem_filter, List.mem_filter]
  by_cases h : isArrayIndexKey p.1 <;> simp [h]

theorem durationFold_const (l : List (ℤ × DurationGroup)) (b : BestDuration)
    (h : ∀ p ∈ l, entryAvg p ≤ b.avgEngagement) :
    durationFold l b = b := by
  induction l with
  | nil => rfl
  | cons p ps ih =>
    rw [show durationFold (p :: ps) b =
        durationFold ps (if b.avgEngagement < entryAvg p then entryBest p else b) from rfl,
      if_neg (not_lt.mpr (h p (List.mem_cons_self _ _)))]
    exact ih fun q hq => h q (List.mem_cons_of_mem _ hq)

theorem durationFold_spec (l : List (ℤ × DurationGroup)) (b : BestDuration) :
    (durationFold l b = b ∧ ∀ p ∈ l, entryAvg p ≤ b.avgEngagement) ∨
      ∃ i, ∃ hi : i < l.length,
        durationFold l b = entryBest (l.get ⟨i, hi⟩) ∧
        b.avgEngagement < entryAvg (l.get ⟨i, hi⟩) ∧
        (∀ p ∈ l, entryAvg p ≤ entryAvg (l.get ⟨i, hi⟩)) ∧
        ∀ j, ∀ hj : j < l.length, j < i →
          entryAvg (l.get ⟨j, hj⟩) < entryAvg (l.get ⟨i, hi⟩) := by
  induction l generalizing b with
  | nil => exact Or.inl ⟨rfl, by simp⟩
  | cons p ps ih =>
    have hstep : durationFold (p :: ps) b =
        durationFold ps (if b.avgEngagement < entryAvg p then entryBest p else b) := rfl
    by_cases h : b.avgEngagement < entryAvg p
    · rw [hstep, if_pos h]
      rcases ih (entryBest p) with ⟨heq, hle⟩ | ⟨i, hi, heq, hgt, hmax, hfirst⟩
      · refine Or.inr ⟨0, by simp, ?_, ?_, ?_, ?_⟩
        · simpa using heq
        · simpa using h
        · intro q hq
          rcases List.mem_cons.mp hq with rfl | hq
          · simp
          · simpa using hle q hq
        · intro j hj hlt
          exact absurd hlt (Nat.not_lt_zero j)
      · refine Or.inr ⟨i + 1, by simpa using Nat.succ_lt_succ hi, ?_, ?_, ?_, ?_⟩
        · simpa [List.get_cons_succ] using heq
        · have : entryAvg p < entryAvg (ps.get ⟨i, hi⟩) := hgt
          simpa [List.get_cons_succ] using h.trans this
        · intro q hq
          rcases List.mem_cons.mp hq with rfl | hq
          · simpa [List.get_cons_succ] using le_of_lt (show entryAvg q < _ from hgt)
          · simpa [List.get_cons_succ] using hmax q hq
        · intro j hj hlt
          cases j with
          | zero =>
            simpa [List.get_cons_zero, List.get_cons_succ] using (show entryAvg p < _ from hgt)
          | succ j' =>
            have hj' : j' < ps.length := by simpa using Nat.lt_of_succ_lt_succ hj
            have := hfirst j' hj' (Nat.lt_of_succ_lt_succ hlt)
            simpa [List.get_cons_succ] using this
    · rw [hstep, if_neg h]
      rcases ih b with ⟨heq, hle⟩ | ⟨i, hi, heq, hgt, hmax, hfirst⟩
      · refine Or.inl ⟨heq, ?_⟩
        intro q hq
        rcases List.mem_cons.mp hq with rfl | hq
        · exact not_lt.mp h
        · exact hle q hq
      · refine Or.inr ⟨i + 1, by simpa using Nat.succ_lt_succ hi, ?_, ?_, ?_, ?_⟩
        · simpa [List.get_cons_succ] using heq
        · simpa [List.get_cons_succ] using hgt
        · intro q hq
          rcases List.mem_cons.mp hq with rfl | hq
          · have h1 : entryAvg q ≤ b.avgEngagement := not_lt.mp h
            simpa [List.get_cons_succ] using h1.trans (le_of_lt hgt)
          · simpa [List.get_cons_succ] using hmax q hq
        · intro j hj hlt
          cases j with
          | zero =>
            have h1 : entryAvg p ≤ b.avgEngagement := not_lt.mp h
            simpa [List.get_cons_zero, List.get_cons_succ] using lt_of_le_of_lt h1 hgt
          | succ j' =>
            have hj' : j' < ps.length := by simpa using Nat.lt_of_succ_lt_succ hj
            have := hfirst j' hj' (Nat.lt_of_succ_lt_succ hlt)
            simpa [List.get_cons_succ] using this

/-- C1: for every video, `calculateEngagementRate` returns
`(likes + comments + shares) / views` when `views > 0`, and `0` when
`views == 0`, regardless of the values of likes, comments and shares. -/
theorem engagementRate_spec (video : Video) :
    (0 < video.stats.views →
      calculateEngagementRate video =
        (video.stats.likes + video.stats.comments + video.stats.shares) /
          video.stats.views) ∧
    (video.stats.views = 0 → calculateEngagementRate video = 0) := by
  constructor
  · intro h
    rw [calculateEngagementRate, if_pos h]
  · intro h
    rw [calculateEngagementRate, if_neg (by rw [h]; exact lt_irrefl 0)]

/-- Witness for C1: a video with 100 views, 10 likes, 5 comments and 5 shares
has rate `20/100`, and a zero-view video has rate `0`. -/
theorem engagementRate_spec_witness :
    (0 < (100 : ℚ) ∧
      calculateEngagementRate ⟨1, ⟨100, 10, 5, 5⟩, 15, 1, 14, ["a"], "x"⟩ =
        (10 + 5 + 5 : ℚ) / 100) ∧
    ((0 : ℚ) = 0 ∧
      calculateEngagementRate ⟨2, ⟨0, 7, 8, 9⟩, 15, 1, 14, ["a"], "x"⟩ = 0) :=
  ⟨⟨by with_unfolding_all decide,
    (engagementRate_spec ⟨1, ⟨100, 10, 5, 5⟩, 15, 1, 14, ["a"], "x"⟩).1
      (by with_unfolding_all decide)⟩,
   ⟨rfl, (engagementRate_spec ⟨2, ⟨0, 7, 8, 9⟩, 15, 1, 14, ["a"], "x"⟩).2 rfl⟩⟩

/-- C4 (the code): when `bestPostingTimes` is empty, `generateRecommendations`
does not return a placeholder — it evaluates `bestPostingTimes[0].day` and
throws a `TypeError`, modelled by `none`.  This refutes the claimed guard. -/
theorem generateRecommendations_empty (analysisResults : AnalysisResults)
    (h : analysisResults.bestPostingTimes = []) :
    generateRecommendations analysisResults = none := by
  unfold generateRecommendations
  rw [h]
  rfl

/-- Witness for C4's theorem at the concrete empty analysis bundle. -/
theorem generateRecommendations_empty_witness :
    generateRecommendations ⟨⟨0, 0, none⟩, [], [], []⟩ = none :=
  generateRecommendations_empty ⟨⟨0, 0, none⟩, [], [], []⟩ rfl

/-- C7: on the empty input list every aggregator returns its well-defined
empty or zero-valued result: `analyzeDuration` gives the placeholder
`{duration: 0, avgEngagement: 0}` with no `sampleSize`, and the other three
aggregators give the empty sequence. -/
theorem emptyBatch_aggregators (log10 : ℚ → ℚ) :
    analyzeDuration [] = ⟨0, 0, none⟩ ∧
    analyzePostingTimes [] = [] ∧
    analyzeHashtags log10 [] = [] ∧
    analyzeMusic log10 [] = [] :=
  ⟨rfl, rfl, rfl, rfl⟩

/-- C9: the batch analysis is a pure function of its input — running it twice
on the same input produces identical output.  The source has no randomness,
clock reads or cross-call mutable state (the accumulation tables are rebuilt
per call), so both runs of `analyzeVideoBatchTwice` coincide. -/
theorem analyzeVideoBatch_deterministic (log10 : ℚ → ℚ) (videos : List Video) :
    (analyzeVideoBatchTwice log10 videos).1 = (analyzeVideoBatchTwice log10 videos).2 :=
  rfl

/-- C10: on any input whose videos all have engagement rate zero — in
particular any non-empty all-zero-view list — `analyzeDuration` still returns
the placeholder `{duration: 0, avgEngagement: 0}` without `sampleSize`,
because the strict `>` against the initial 0 never selects a group. -/
theorem analyzeDuration_allZeroRates (videos : List Video)
    (h : ∀ v ∈ videos, calculateEngagementRate v = 0) :
    analyzeDuration videos = ⟨0, 0, none⟩ := by
  rw [analyzeDuration]
  apply durationFold_const
  intro p hp
  rw [mem_jsIntKeyEntries] at hp
  have hl : lookupAList p.1 (durationGroups videos) = some p.2 :=
    (lookupAList_eq_some_iff_mem (nodup_keys_durationGroups videos) p.1 p.2).mpr hp
  rw [lookupAList_durationGroups] at hl
  by_cases hc : durContribs p.1 videos = []
  · rw [if_pos hc] at hl
    exact absurd hl (by simp)
  · rw [if_neg hc] at hl
    have hg : p.2 =
        ⟨(durContribs p.1 videos).length,
         ((durContribs p.1 videos).map calculateEngagementRate).sum,
         durContribs p.1 videos⟩ := by
      injection hl with h'
      exact h'.symm
    have hsum : ((durContribs p.1 videos).map calculateEngagementRate).sum = 0 := by
      apply List.sum_eq_zero
      intro x hx
      rw [List.mem_map] at hx
      obtain ⟨v, hv, rfl⟩ := hx
      exact h v (List.mem_of_mem_filter hv)
    rw [entryAvg, hg]
    simp [hsum]

/-- Witness for C10 at a non-empty list: one zero-view video. -/
theorem analyzeDuration_allZeroRates_witness :
    (∀ v ∈ [(⟨1, ⟨0, 9, 9, 9⟩, 15, 1, 14, ["a"], "x"⟩ : Video)],
      calculateEngagementRate v = 0) ∧
    analyzeDuration [⟨1, ⟨0, 9, 9, 9⟩, 15, 1, 14, ["a"], "x"⟩] = ⟨0, 0, none⟩ :=
  ⟨by with_unfolding_all decide,
   analyzeDuration_allZeroRates _ (by with_unfolding_all decide)⟩

theorem getD_lookupAList_hashtagStats (videos : List Video) (t : String) :
    (lookupAList t (hashtagStats videos)).getD ⟨0, 0, 0, []⟩ =
      ⟨tagUseCount t videos, tagEngagementSum t videos, tagViewsSum t videos,
       (tagContribs t videos).map Video.id⟩ := by
  rw [lookupAList_hashtagStats]
  by_cases h : tagContribs t videos = []
  · rw [if_pos h]
    simp [tagUseCount, tagEngagementSum, tagViewsSum, h]
  · rw [if_neg h]
    rfl

theorem tagContribs_append_singleton (vs : List Video) (video : Video) (t : String) :
    tagContribs t (vs ++ [video]) =
      tagContribs t vs ++
        List.replicate (video.hashtags.filter fun x => x = t).length video := by
  show (vs ++ [video]).flatMap
      (fun v => (v.hashtags.filter fun x => x = t).map fun _ => v) = _
  rw [List.flatMap_append, List.flatMap_singleton]
  congr 1
  exact List.map_const' _ _

/-- C8: appending one video whose tag list contains hashtag `t` exactly `k`
times adds `k` to that tag's accumulated count, `k` times the video's
engagement rate to its engagement sum, `k` times the video's views to its view
sum, and `k` copies of the video id to its id list — no de-duplication inside
a single video's tag list. -/
theorem hashtag_repeat_contributions (vs : List Video) (video : Video) (t : String) :
    (lookupAList t (hashtagStats (vs ++ [video]))).getD ⟨0, 0, 0, []⟩ =
      ⟨((lookupAList t (hashtagStats vs)).getD ⟨0, 0, 0, []⟩).count +
          (video.hashtags.filter fun x => x = t).length,
       ((lookupAList t (hashtagStats vs)).getD ⟨0, 0, 0, []⟩).totalEngagement +
          ((video.hashtags.filter fun x => x = t).length : ℚ) *
            calculateEngagementRate video,
       ((lookupAList t (hashtagStats vs)).getD ⟨0, 0, 0, []⟩).totalViews +
          ((video.hashtags.filter fun x => x = t).length : ℚ) * video.stats.views,
       ((lookupAList t (hashtagStats vs)).getD ⟨0, 0, 0, []⟩).videos ++
          List.replicate (video.hashtags.filter fun x => x = t).length video.id⟩ := by
  rw [getD_lookupAList_hashtagStats, getD_lookupAList_hashtagStats]
  simp only [tagUseCount, tagEngagementSum, tagViewsSum,
    tagContribs_append_singleton, List.length_append, List.map_append,
    List.sum_append, List.map_replicate, List.sum_replicate, List.length_replicate,
    nsmul_eq_mul, TagStat.mk.injEq]

/-- C6: any hashtag or music entry whose accumulated `totalViews` is zero gets
the score `avgEngagement * Math.log10(0) = avgEngagement * -Infinity` — a
non-finite IEEE-754 value (`-Infinity`, `+Infinity`, or `NaN` when the average
is itself zero) — and the entry is still produced, not an error. -/
theorem performanceScore_zeroViews (log10 : ℚ → ℚ) (videos : List Video) :
    (∀ e ∈ analyzeHashtags log10 videos, e.totalViews = 0 →
      (performanceScoreJs log10 e.avgEngagement e.totalViews).isFinite = false) ∧
    (∀ e ∈ analyzeMusic log10 videos, e.totalViews = 0 →
      (performanceScoreJs log10 e.avgEngagement e.totalViews).isFinite = false) := by
  constructor
  · intro e _ hv
    rw [hv, performanceScoreJs, jsLog10, if_pos rfl]
    show (if e.avgEngagement = 0 then JsFloat.nan
      else if 0 < e.avgEngagement then JsFloat.negInf else JsFloat.posInf).isFinite = false
    split_ifs <;> rfl
  · intro e _ hv
    rw [hv, performanceScoreJs, jsLog10, if_pos rfl]
    show (if e.avgEngagement = 0 then JsFloat.nan
      else if 0 < e.avgEngagement then JsFloat.negInf else JsFloat.posInf).isFinite = false
    split_ifs <;> rfl

/-- Witness for C6: a single zero-view video with one hashtag and one music
track produces one hashtag entry and one music entry, both with
`totalViews = 0` and a non-finite score. -/
theorem performanceScore_zeroViews_witness :
    ((⟨"a", 0, 0, 1, 0⟩ : HashtagEntry) ∈
        analyzeHashtags (fun _ => 0) [⟨1, ⟨0, 9, 9, 9⟩, 15, 1, 14, ["a"], "m"⟩] ∧
      (⟨"a", 0, 0, 1, 0⟩ : HashtagEntry).totalViews = 0 ∧
      (performanceScoreJs (fun _ => 0) (⟨"a", 0, 0, 1, 0⟩ : HashtagEntry).avgEngagement
        (⟨"a", 0, 0, 1, 0⟩ : HashtagEntry).totalViews).isFinite = false) ∧
    ((⟨"m", 0, 0, 1, 0⟩ : MusicEntry) ∈
        analyzeMusic (fun _ => 0) [⟨1, ⟨0, 9, 9, 9⟩, 15, 1, 14, ["a"], "m"⟩] ∧
      (⟨"m", 0, 0, 1, 0⟩ : MusicEntry).totalViews = 0 ∧
      (performanceScoreJs (fun _ => 0) (⟨"m", 0, 0, 1, 0⟩ : MusicEntry).avgEngagement
        (⟨"m", 0, 0, 1, 0⟩ : MusicEntry).totalViews).isFinite = false) := by
  have hm1 : (⟨"a", 0, 0, 1, 0⟩ : HashtagEntry) ∈
      analyzeHashtags (fun _ => 0) [⟨1, ⟨0, 9, 9, 9⟩, 15, 1, 14, ["a"], "m"⟩] := by
    with_unfolding_all decide
  have hm2 : (⟨"m", 0, 0, 1, 0⟩ : MusicEntry) ∈
      analyzeMusic (fun _ => 0) [⟨1, ⟨0, 9, 9, 9⟩, 15, 1, 14, ["a"], "m"⟩] := by
    with_unfolding_all decide
  exact ⟨⟨hm1, rfl, (performanceScore_zeroViews (fun _ => 0) _).1 _ hm1 rfl⟩,
         ⟨hm2, rfl, (performanceScore_zeroViews (fun _ => 0) _).2 _ hm2 rfl⟩⟩

theorem timeSlots_entry_eq (videos : List Video) (p : (ℕ × ℕ) × TimeSlot)
    (hp : p ∈ timeSlots videos) :
    p.2 = ⟨(slotContribs p.1 videos).length,
           ((slotContribs p.1 videos).map calculateEngagementRate).sum,
           p.1.1, p.1.2⟩ ∧
    slotContribs p.1 videos ≠ [] := by
  have hl := (lookupAList_eq_some_iff_mem (nodup_keys_timeSlots videos) p.1 p.2).mpr hp
  rw [lookupAList_timeSlots] at hl
  by_cases hc : slotContribs p.1 videos = []
  · rw [if_pos hc] at hl
    exact absurd hl (by simp)
  · rw [if_neg hc] at hl
    refine ⟨?_, hc⟩
    injection hl with h'
    exact h'.symm

theorem map_slot_slotRankings (videos : List Video) :
    (slotRankings videos).map (fun s => (s.day, s.hour)) =
      (timeSlots videos).map Prod.fst := by
  rw [slotRankings, List.map_map]
  apply List.map_congr_left
  intro p hp
  have h := (timeSlots_entry_eq videos p hp).1
  show (p.2.day, p.2.hour) = p.1
  rw [h]

theorem length_timeSlots (videos : List Video) :
    (timeSlots videos).length = (videos.map fun v => (v.day, v.hour)).dedup.length := by
  have h1 : ((timeSlots videos).map Prod.fst).Nodup := nodup_keys_timeSlots videos
  have h2 : ((videos.map fun v => (v.day, v.hour)).dedup).Nodup := List.nodup_dedup _
  have hperm : List.Perm ((timeSlots videos).map Prod.fst)
      ((videos.map fun v => (v.day, v.hour)).dedup) := by
    rw [List.perm_ext_iff_of_nodup h1 h2]
    intro k
    rw [mem_keys_timeSlots, List.mem_dedup]
  have := hperm.length_eq
  simpa using this

/-- C5: `analyzePostingTimes` returns at most five entries — exactly
`min 5 (number of distinct (day, hour) slots)`, never padded — namely the
first five of the full ranked list, which carries exactly one entry per
distinct slot present in the input; the output is sorted non-increasing by
average engagement, and entries with equal averages keep their first-encounter
order (stable sort). -/
theorem analyzePostingTimes_spec (videos : List Video) :
    (analyzePostingTimes videos).length ≤ 5 ∧
    (analyzePostingTimes videos).length =
      min 5 ((videos.map fun v => (v.day, v.hour)).dedup.length) ∧
    ((rankedTimeSlots videos).map fun s => (s.day, s.hour)).Nodup ∧
    (∀ k : ℕ × ℕ, (k ∈ (rankedTimeSlots videos).map fun s => (s.day, s.hour)) ↔
      k ∈ videos.map fun v => (v.day, v.hour)) ∧
    (analyzePostingTimes videos).Pairwise
      (fun a b => b.avgEngagement ≤ a.avgEngagement) ∧
    analyzePostingTimes videos = (rankedTimeSlots videos).take 5 ∧
    (∀ q : ℚ, (rankedTimeSlots videos).filter (fun s => s.avgEngagement = q) =
      (slotRankings videos).filter fun s => s.avgEngagement = q) := by
  have hpermmap : List.Perm ((rankedTimeSlots videos).map fun s => (s.day, s.hour))
      ((slotRankings videos).map fun s => (s.day, s.hour)) :=
    (sortByDesc_perm _ _).map _
  have hlenranked : (rankedTimeSlots videos).length =
      (videos.map fun v => (v.day, v.hour)).dedup.length := by
    have h := (sortByDesc_perm (fun s : RankedTimeSlot => s.avgEngagement)
      (slotRankings videos)).length_eq
    rw [show (rankedTimeSlots videos).length =
        (sortByDesc (fun s : RankedTimeSlot => s.avgEngagement)
          (slotRankings videos)).length from rfl, h,
      slotRankings, List.length_map, length_timeSlots]
  refine ⟨?_, ?_, ?_, ?_, ?_, rfl, ?_⟩
  · rw [analyzePostingTimes, List.length_take]
    exact min_le_left _ _
  · rw [analyzePostingTimes, List.length_take, hlenranked]
  · rw [hpermmap.nodup_iff, map_slot_slotRankings]
    exact nodup_keys_timeSlots videos
  · intro k
    rw [hpermmap.mem_iff, map_slot_slotRankings, mem_keys_timeSlots]
  · exact (sortByDesc_pairwise _ _).take
  · intro q
    exact sortByDesc_filter_eq (fun s => s.avgEngagement) q (slotRankings videos)

theorem hashtagStats_entry_eq (videos : List Video) (p : String × TagStat)
    (hp : p ∈ hashtagStats videos) :
    p.2 = ⟨tagUseCount p.1 videos, tagEngagementSum p.1 videos, tagViewsSum p.1 videos,
           (tagContribs p.1 videos).map Video.id⟩ ∧
    tagContribs p.1 videos ≠ [] := by
  have hl := (lookupAList_eq_some_iff_mem (nodup_keys_hashtagStats videos) p.1 p.2).mpr hp
  rw [lookupAList_hashtagStats] at hl
  by_cases hc : tagContribs p.1 videos = []
  · rw [if_pos hc] at hl
    exact absurd hl (by simp)
  · rw [if_neg hc] at hl
    refine ⟨?_, hc⟩
    injection hl with h'
    exact h'.symm

theorem musicStats_entry_eq (videos : List Video) (p : String × TagStat)
    (hp : p ∈ musicStats videos) :
    p.2 = ⟨(musicContribs p.1 videos).length,
           ((musicContribs p.1 videos).map calculateEngagementRate).sum,
           ((musicContribs p.1 videos).map fun v => v.stats.views).sum,
           (musicContribs p.1 videos).map Video.id⟩ ∧
    musicContribs p.1 videos ≠ [] := by
  have hl := (lookupAList_eq_some_iff_mem (nodup_keys_musicStats videos) p.1 p.2).mpr hp
  rw [lookupAList_musicStats] at hl
  by_cases hc : musicContribs p.1 videos = []
  · rw [if_pos hc] at hl
    exact absurd hl (by simp)
  · rw [if_neg hc] at hl
    refine ⟨?_, hc⟩
    injection hl with h'
    exact h'.symm

theorem length_keys_hashtagStats (videos : List Video) :
    ((hashtagStats videos).map Prod.fst).length =
      (videos.flatMap Video.hashtags).dedup.length := by
  have hperm : List.Perm ((hashtagStats videos).map Prod.fst)
      ((videos.flatMap Video.hashtags).dedup) := by
    rw [List.perm_ext_iff_of_nodup (nodup_keys_hashtagStats videos) (List.nodup_dedup _)]
    intro t
    rw [mem_keys_hashtagStats, List.mem_dedup]
  exact hperm.length_eq

theorem length_keys_musicStats (videos : List Video) :
    ((musicStats videos).map Prod.fst).length =
      (videos.map Video.music).dedup.length := by
  have hperm : List.Perm ((musicStats videos).map Prod.fst)
      ((videos.map Video.music).dedup) := by
    rw [List.perm_ext_iff_of_nodup (nodup_keys_musicStats videos) (List.nodup_dedup _)]
    intro mu
    rw [mem_keys_musicStats, List.mem_dedup]
  exact hperm.length_eq

/-- C2: `analyzeHashtags` and `analyzeMusic` each return exactly one entry per
distinct key present in the input (no truncation: the output length is the
number of distinct keys), each entry carrying
`avgEngagement = summed engagement / count`, `totalViews  = summed views`,
`useCount = count`, and
`performanceScore = avgEngagement * log10(totalViews)`, and each returned
sequence is sorted non-increasing by `performanceScore`. -/
theorem rankings_spec (log10 : ℚ → ℚ) (videos : List Video) :
    (((analyzeHashtags log10 videos).map HashtagEntry.tag).Nodup ∧
     (∀ t, t ∈ (analyzeHashtags log10 videos).map HashtagEntry.tag ↔
        t ∈ videos.flatMap Video.hashtags) ∧
     (analyzeHashtags log10 videos).length =
        (videos.flatMap Video.hashtags).dedup.length ∧
     (∀ e ∈ analyzeHashtags log10 videos,
        e.useCount = tagUseCount e.tag videos ∧ e.useCount ≠ 0 ∧
        e.avgEngagement =
          tagEngagementSum e.tag videos / (tagUseCount e.tag videos : ℚ) ∧
        e.totalViews = tagViewsSum e.tag videos ∧
        e.performanceScore = e.avgEngagement * log10 e.totalViews) ∧
     (analyzeHashtags log10 videos).Pairwise
        (fun a b => b.performanceScore ≤ a.performanceScore)) ∧
    (((analyzeMusic log10 videos).map MusicEntry.music).Nodup ∧
     (∀ mu, mu ∈ (analyzeMusic log10 videos).map MusicEntry.music ↔
        mu ∈ videos.map Video.music) ∧
     (analyzeMusic log10 videos).length = (videos.map Video.music).dedup.length ∧
     (∀ e ∈ analyzeMusic log10 videos,
        e.useCount = (musicContribs e.music videos).length ∧ e.useCount ≠ 0 ∧
        e.avgEngagement =
          ((musicContribs e.music videos).map calculateEngagementRate).sum /
            ((musicContribs e.music videos).length : ℚ) ∧
        e.totalViews = ((musicContribs e.music videos).map fun v => v.stats.views).sum ∧
        e.performanceScore = e.avgEngagement * log10 e.totalViews) ∧
     (analyzeMusic log10 videos).Pairwise
        (fun a b => b.performanceScore ≤ a.performanceScore)) := by
  have hhtperm : List.Perm ((analyzeHashtags log10 videos).map HashtagEntry.tag)
      ((hashtagStats videos).map Prod.fst) := by
    have h := (sortByDesc_perm (fun e : HashtagEntry => e.performanceScore)
      ((hashtagStats videos).map (fun p =>
        (⟨p.1, p.2.totalEngagement / (p.2.count : ℚ), p.2.totalViews, p.2.count,
          p.2.totalEngagement / (p.2.count : ℚ) * log10 p.2.totalViews⟩ :
          HashtagEntry)))).map HashtagEntry.tag
    rw [List.map_map] at h
    exact h
  have hmuperm : List.Perm ((analyzeMusic log10 videos).map MusicEntry.music)
      ((musicStats videos).map Prod.fst) := by
    have h := (sortByDesc_perm (fun e : MusicEntry => e.performanceScore)
      ((musicStats videos).map (fun p =>
        (⟨p.1, p.2.totalEngagement / (p.2.count : ℚ), p.2.totalViews, p.2.count,
          p.2.totalEngagement / (p.2.count : ℚ) * log10 p.2.totalViews⟩ :
          MusicEntry)))).map MusicEntry.music
    rw [List.map_map] at h
    exact h
  refine ⟨⟨?_, ?_, ?_, ?_, ?_⟩, ⟨?_, ?_, ?_, ?_, ?_⟩⟩
  · exact hhtperm.nodup_iff.mpr (nodup_keys_hashtagStats videos)
  · intro t
    exact hhtperm.mem_iff.trans (mem_keys_hashtagStats videos t)
  · have h := hhtperm.length_eq
    rw [List.length_map, length_keys_hashtagStats] at h
    exact h
  · intro e he
    have he' : e ∈ (hashtagStats videos).map (fun p =>
        (⟨p.1, p.2.totalEngagement / (p.2.count : ℚ), p.2.totalViews, p.2.count,
          p.2.totalEngagement / (p.2.count : ℚ) * log10 p.2.totalViews⟩ :
          HashtagEntry)) :=
      (sortByDesc_perm (fun e : HashtagEntry => e.performanceScore) _).mem_iff.mp he
    obtain ⟨p, hp, rfl⟩ := List.mem_map.mp he'
    obtain ⟨hstat, hne⟩ := hashtagStats_entry_eq videos p hp
    refine ⟨?_, ?_, ?_, ?_, rfl⟩
    · show p.2.count = tagUseCount p.1 videos
      rw [hstat]
    · show p.2.count ≠ 0
      rw [hstat]
      simpa [tagUseCount, List.length_eq_zero] using hne
    · show p.2.totalEngagement / (p.2.count : ℚ) =
        tagEngagementSum p.1 videos / (tagUseCount p.1 videos : ℚ)
      rw [hstat]
    · show p.2.totalViews = tagViewsSum p.1 videos
      rw [hstat]
  · exact sortByDesc_pairwise _ _
  · exact hmuperm.nodup_iff.mpr (nodup_keys_musicStats videos)
  · intro mu
    exact hmuperm.mem_iff.trans (mem_keys_musicStats videos mu)
  · have h := hmuperm.length_eq
    rw [List.length_map, length_keys_musicStats] at h
    exact h
  · intro e he
    have he' : e ∈ (musicStats videos).map (fun p =>
        (⟨p.1, p.2.totalEngagement / (p.2.count : ℚ), p.2.totalViews, p.2.count,
          p.2.totalEngagement / (p.2.count : ℚ) * log10 p.2.totalViews⟩ :
          MusicEntry)) :=
      (sortByDesc_perm (fun e : MusicEntry => e.performanceScore) _).mem_iff.mp he
    obtain ⟨p, hp, rfl⟩ := List.mem_map.mp he'
    obtain ⟨hstat, hne⟩ := musicStats_entry_eq videos p hp
    refine ⟨?_, ?_, ?_, ?_, rfl⟩
    · show p.2.count = (musicContribs p.1 videos).length
      rw [hstat]
    · show p.2.count ≠ 0
      rw [hstat]
      simpa [List.length_eq_zero] using hne
    · show p.2.totalEngagement / (p.2.count : ℚ) =
        ((musicContribs p.1 videos).map calculateEngagementRate).sum /
          ((musicContribs p.1 videos).length : ℚ)
      rw [hstat]
    · show p.2.totalViews = ((musicContribs p.1 videos).map fun v => v.stats.views).sum
      rw [hstat]
  · exact sortByDesc_pairwise _ _

theorem durationGroups_entry_eq (videos : List Video) (p : ℤ × DurationGroup)
    (hp : p ∈ durationGroups videos) :
    p.2 = ⟨(durContribs p.1 videos).length,
           ((durContribs p.1 videos).map calculateEngagementRate).sum,
           durContribs p.1 videos⟩ ∧
    durContribs p.1 videos ≠ [] := by
  have hl := (lookupAList_eq_some_iff_mem (nodup_keys_durationGroups videos) p.1 p.2).mpr hp
  rw [lookupAList_durationGroups] at hl
  by_cases hc : durContribs p.1 videos = []
  · rw [if_pos hc] at hl
    exact absurd hl (by simp)
  · rw [if_neg hc] at hl
    refine ⟨?_, hc⟩
    injection hl with h'
    exact h'.symm

/-- C3 counterexample: two videos with equal engagement rate 1/10, the first
of duration 20 and the second of duration 10.  The group first encountered in
input order has key 20 and the two groups tie, yet `analyzeDuration` returns
duration 10: `Object.entries` enumerates the integer keys in ascending order,
so on a tie the smallest array-index key wins, not the group first encountered
in input order as the claim states. -/
theorem analyzeDuration_tie_counterexample :
    (durationGroups
        [⟨1, ⟨100, 10, 0, 0⟩, 20, 1, 14, [], "x"⟩,
         ⟨2, ⟨100, 10, 0, 0⟩, 10, 1, 14, [], "x"⟩]).map
        (fun p => (p.1, entryAvg p)) = [(20, 1 / 10), (10, 1 / 10)] ∧
    analyzeDuration
        [⟨1, ⟨100, 10, 0, 0⟩, 20, 1, 14, [], "x"⟩,
         ⟨2, ⟨100, 10, 0, 0⟩, 10, 1, 14, [], "x"⟩] =
      ⟨10, 1 / 10, some 1⟩ := by
  with_unfolding_all decide

/-- C3 amended: `analyzeDuration` groups videos by `Math.floor(duration)`
(each bucket holding exactly the videos whose truncated duration equals its
key, with per-bucket count and summed engagement), and — provided some
bucket's average engagement is strictly positive — returns the first bucket,
in JS `Object.entries` enumeration order (array-index keys ascending, then
remaining keys in insertion order), whose average engagement equals the
maximum, as `{duration, avgEngagement, sampleSize}`.  On a tie the winner is
the bucket earliest in that enumeration order, not the group first encountered
in input order. -/
theorem analyzeDuration_amended (videos : List Video)
    (hpos : ∃ p ∈ jsIntKeyEntries (durationGroups videos), 0 < entryAvg p) :
    (∀ p ∈ jsIntKeyEntries (durationGroups videos),
      p.2 = ⟨(durContribs p.1 videos).length,
             ((durContribs p.1 videos).map calculateEngagementRate).sum,
             durContribs p.1 videos⟩) ∧
    ∃ i, ∃ hi : i < (jsIntKeyEntries (durationGroups videos)).length,
      analyzeDuration videos =
        entryBest ((jsIntKeyEntries (durationGroups videos)).get ⟨i, hi⟩) ∧
      (∀ p ∈ jsIntKeyEntries (durationGroups videos),
        entryAvg p ≤ entryAvg ((jsIntKeyEntries (durationGroups videos)).get ⟨i, hi⟩)) ∧
      ∀ j, ∀ hj : j < (jsIntKeyEntries (durationGroups videos)).length, j < i →
        entryAvg ((jsIntKeyEntries (durationGroups videos)).get ⟨j, hj⟩) <
          entryAvg ((jsIntKeyEntries (durationGroups videos)).get ⟨i, hi⟩) := by
  constructor
  · intro p hp
    exact (durationGroups_entry_eq videos p ((mem_jsIntKeyEntries _ _).mp hp)).1
  · rcases durationFold_spec (jsIntKeyEntries (durationGroups videos)) ⟨0, 0, none⟩ with
      ⟨_, hle⟩ | ⟨i, hi, heq, _, hmax, hfirst⟩
    · obtain ⟨p, hp, hppos⟩ := hpos
      exact absurd (hle p hp) (not_le.mpr hppos)
    · exact ⟨i, hi, heq, hmax, hfirst⟩

/-- Witness for the amended C3 at the concrete batch with durations 12.9,
12.1 and 13.0 (positive engagement in every bucket). -/
theorem analyzeDuration_amended_witness :
    (∃ p ∈ jsIntKeyEntries (durationGroups sampleDurationVideos), 0 < entryAvg p) ∧
    ((∀ p ∈ jsIntKeyEntries (durationGroups sampleDurationVideos),
      p.2 = ⟨(durContribs p.1 sampleDurationVideos).length,
             ((durContribs p.1 sampleDurationVideos).map calculateEngagementRate).sum,
             durContribs p.1 sampleDurationVideos⟩) ∧
    ∃ i, ∃ hi : i < (jsIntKeyEntries (durationGroups sampleDurationVideos)).length,
      analyzeDuration sampleDurationVideos =
        entryBest ((jsIntKeyEntries (durationGroups sampleDurationVideos)).get ⟨i, hi⟩) ∧
      (∀ p ∈ jsIntKeyEntries (durationGroups sampleDurationVideos),
        entryAvg p ≤
          entryAvg ((jsIntKeyEntries (durationGroups sampleDurationVideos)).get ⟨i, hi⟩)) ∧
      ∀ j, ∀ hj : j < (jsIntKeyEntries (durationGroups sampleDurationVideos)).length,
        j < i →
        entryAvg ((jsIntKeyEntries (durationGroups sampleDurationVideos)).get ⟨j, hj⟩) <
          entryAvg ((jsIntKeyEntries (durationGroups sampleDurationVideos)).get ⟨i, hi⟩)) :=
  ⟨by with_unfolding_all decide,
   analyzeDuration_amended sampleDurationVideos (by with_unfolding_all decide)⟩

end TikTok
